import Mathlib

/-!
Formal model of the URL-liveness batch checker in `src/py.py`.

The program probes one URL per input row under a counting semaphore,
classifies each probe as good or bad, and partitions the rows into two
output lists.  We embed:

* the outcome classification of `check_url` (lines 16-23) as a pure
  function over the observable behaviour of the single HTTP GET;
* the semaphore discipline of `check_url` (the `async with semaphore`
  block) as a small-step transition system over per-task phases;
* the aggregation of `check_urls` (lines 26-41), where each finished
  task appends its row to `good_rows` or `bad_rows`, as a function of
  the order in which the concurrent probes complete;
* the top-level `process_csv` (lines 43-63) with its observable
  effects (requests issued, files written, messages printed) and its
  Python return channel.
-/

/-- Configuration constant `http_timeout = 10` (line 11 of the source). -/
def http_timeout : Nat := 10

/-- Configuration constant `max_concurrency = 500` (line 12 of the source). -/
def max_concurrency : Nat := 500

/-- File name constant `input_file = 'data.csv'` (line 7). -/
def input_file : String := "data.csv"

/-- File name constant `good_file = 'good.csv'` (line 8). -/
def good_file : String := "good.csv"

/-- File name constant `bad_file = 'bad.csv'` (line 9). -/
def bad_file : String := "bad.csv"

/-- Status classification of line 21 of the source:
`return 200 <= response.status < 300`. -/
def classify (status : Nat) : Bool :=
  decide (200 ≤ status ∧ status < 300)

/-- The exception kinds `session.get` may raise (all are caught by the
bare `except:` on line 22): connection failure, DNS failure, malformed
URL, timeout exceeded, or any other transport-level fault. -/
inductive AiohttpError where
  | connectionError
  | dnsError
  | invalidUrl
  | timeoutError
  | otherTransport
deriving DecidableEq

/-- Observable behaviour of the single HTTP GET issued on line 19:
either a response with some status code arrives, or the call raises an
exception. -/
inductive GetBehaviour where
  | respond (status : Nat)
  | raiseExn (e : AiohttpError)
deriving DecidableEq

/-- The raw `session.get(url)` call of line 19: returns the response
status, or fails with the exception the transport raised. -/
def session_get : GetBehaviour → Except AiohttpError Nat
  | .respond s => .ok s
  | .raiseExn e => .error e

/-- What one execution of the `check_url` body produced: the boolean
returned to the caller, and whether the `asyncio.sleep(request_delay)`
of line 20 was awaited. -/
structure ProbeRun where
  result : Bool
  delayed : Bool
deriving DecidableEq

/-- Embedding of `check_url` (lines 16-23), excluding the semaphore
(modelled separately as a transition system).  The `try` block awaits
the GET; if a response arrives it sleeps `request_delay` and returns
the status classification; the bare `except:` catches every exception
and returns `False`.  The `Except` codomain is the Python exception
channel: an `.error` value would mean an exception escaping
`check_url`. -/
def check_url (b : GetBehaviour) : Except AiohttpError ProbeRun :=
  match session_get b with
  | .ok s => .ok ⟨classify s, true⟩
  | .error _ => .ok ⟨false, false⟩

/-- The boolean `is_valid` that `process_row` (line 32) receives from
`await check_url(...)`. -/
def probeResult (b : GetBehaviour) : Bool :=
  match check_url b with
  | .ok run => run.result
  | .error _ => false

/-- Embedding of `check_urls` (lines 26-41).  One task per row is
spawned in input order; `order` is the sequence of row indices in the
order in which the tasks finish (for a complete run it is a permutation
of `0, ..., n-1`).  Each finishing task appends its own row to
`good_rows` when its probe returned true and to `bad_rows` otherwise,
so each output list holds its rows in completion order.
`behaviour i` is the observable HTTP behaviour of row `i`'s probe. -/
def check_urls (records : List α) (behaviour : Nat → GetBehaviour)
    (order : List Nat) : List α × List α :=
  (order.filterMap fun i =>
      if probeResult (behaviour i) then records[i]? else none,
   order.filterMap fun i =>
      if probeResult (behaviour i) then none else records[i]?)

/-- The column holding the URLs, `'发布链接'` (lines 31 and 47). -/
def urlColumn : String := "发布链接"

/-- The message printed on line 48 when the URL column is absent. -/
def missing_column_msg : String := "没有找到发布链接列"

/-- The message printed on line 63 after the output files are written. -/
def done_msg : String := "处理完毕，生成文件：good.csv 和 bad.csv"

/-- A loaded CSV: its column names and its rows (rows are opaque and
copied verbatim into the outputs). -/
structure Csv (α : Type) where
  columns : List String
  rows : List α

/-- Observable effects of one `process_csv` run: how many HTTP requests
were issued, the contents written to `good.csv` and `bad.csv` (`none`
when no files were written), and the messages printed. -/
structure RunEffects (α : Type) where
  requestsIssued : Nat
  written : Option (List α × List α)
  printed : List String
deriving DecidableEq

/-- A Python exception escaping `process_csv`. -/
inductive PyError where
  | err (msg : String)
deriving DecidableEq

/-- Embedding of `process_csv` (lines 43-63) after `pd.read_csv`
succeeds.  If the URL column is absent the function prints a message
and returns `None` (lines 47-49) with no requests issued and no files
written; otherwise it runs `check_urls` on the rows, writes the two
partitions, prints the final message and returns `None`.  The first
component is the Python return channel (`None` on both paths, no
`raise` anywhere in the body). -/
def process_csv (csv : Csv α) (behaviour : Nat → GetBehaviour)
    (order : List Nat) : Except PyError Unit × RunEffects α :=
  if urlColumn ∈ csv.columns then
    let gb := check_urls csv.rows behaviour order
    (.ok (), ⟨csv.rows.length, some gb, [done_msg]⟩)
  else
    (.ok (), ⟨0, none, [missing_column_msg]⟩)

/-- Control position of one probe task inside `check_url` (lines
16-23): `pending` before the `async with semaphore` acquires,
`requesting` while awaiting `session.get`, `sleeping status` while
awaiting `asyncio.sleep` after a response with status `status`
arrived, and `done result` once the function has returned (the
`async with` releases the permit on exit). -/
inductive Phase where
  | pending
  | requesting
  | sleeping (status : Nat)
  | done (result : Bool)
deriving DecidableEq

/-- A task holds a semaphore permit exactly while it is inside the
`async with semaphore` block: awaiting the GET or awaiting the
post-response sleep. -/
def Phase.holdsPermit : Phase → Bool
  | .requesting => true
  | .sleeping _ => true
  | _ => false

/-- Global state of a run of `check_urls`: the number of free
semaphore permits and the phase of each spawned task. -/
structure SemState where
  avail : Nat
  phases : List Phase
deriving DecidableEq

/-- Initial state: `asyncio.Semaphore(cap)` full, `n` tasks spawned
and not yet started. -/
def initState (cap n : Nat) : SemState :=
  ⟨cap, List.replicate n .pending⟩

/-- One atomic scheduler step of the system, as dictated by the code
of `check_url`:
* `acquire`: a pending task enters `async with semaphore`, which
  requires a free permit and consumes it;
* `respond`: the awaited GET of a requesting task yields a response,
  moving the task to the `asyncio.sleep` await — the permit stays
  held;
* `raiseExn`: the awaited GET raises; the bare `except:` returns
  `False` and the `async with` releases the permit on the way out;
* `wake`: the sleep of a task that got status `status` finishes, the
  task returns `classify status` and the `async with` releases the
  permit. -/
inductive Step : SemState → SemState → Prop where
  | acquire (s : SemState) (i : Nat)
      (hp : s.phases[i]? = some .pending) (ha : 0 < s.avail) :
      Step s ⟨s.avail - 1, s.phases.set i .requesting⟩
  | respond (s : SemState) (i status : Nat)
      (hp : s.phases[i]? = some .requesting) :
      Step s ⟨s.avail, s.phases.set i (.sleeping status)⟩
  | raiseExn (s : SemState) (i : Nat)
      (hp : s.phases[i]? = some .requesting) :
      Step s ⟨s.avail + 1, s.phases.set i (.done false)⟩
  | wake (s : SemState) (i status : Nat)
      (hp : s.phases[i]? = some (.sleeping status)) :
      Step s ⟨s.avail + 1, s.phases.set i (.done (classify status))⟩

/-- States reachable from the initial state of a run with semaphore
capacity `cap` and `n` spawned tasks. -/
def Reachable (cap n : Nat) (s : SemState) : Prop :=
  Relation.ReflTransGen Step (initState cap n) s

/-- Number of tasks currently holding a permit. -/
def holders (s : SemState) : Nat :=
  s.phases.countP Phase.holdsPermit

/-- Semaphore accounting: free permits plus held permits always equal
the configured capacity. -/
def permitInv (cap : Nat) (s : SemState) : Prop :=
  s.avail + holders s = cap

/-- The initial state satisfies the accounting invariant. -/
theorem permitInv_init (cap n : Nat) : permitInv cap (initState cap n) := by
  simp [permitInv, holders, initState, List.countP_replicate, Phase.holdsPermit]

/-- Every scheduler step preserves the accounting invariant. -/
theorem permitInv_step {cap : Nat} {s s' : SemState} (hs : Step s s')
    (hinv : permitInv cap s) : permitInv cap s' := by
  unfold permitInv holders at hinv ⊢
  cases hs with
  | acquire i hp ha =>
      obtain ⟨hlt, hget⟩ := List.getElem?_eq_some_iff.mp hp
      dsimp only
      rw [List.countP_set _ _ _ _ hlt, hget]
      simp [Phase.holdsPermit]
      omega
  | respond i status hp =>
      obtain ⟨hlt, hget⟩ := List.getElem?_eq_some_iff.mp hp
      have hmem : Phase.requesting ∈ s.phases := hget ▸ List.getElem_mem hlt
      have hb : 0 < s.phases.countP Phase.holdsPermit :=
        List.countP_pos_iff.mpr ⟨_, hmem, rfl⟩
      dsimp only
      rw [List.countP_set _ _ _ _ hlt, hget]
      simp [Phase.holdsPermit]
      omega
  | raiseExn i hp =>
      obtain ⟨hlt, hget⟩ := List.getElem?_eq_some_iff.mp hp
      have hmem : Phase.requesting ∈ s.phases := hget ▸ List.getElem_mem hlt
      have hb : 0 < s.phases.countP Phase.holdsPermit :=
        List.countP_pos_iff.mpr ⟨_, hmem, rfl⟩
      dsimp only
      rw [List.countP_set _ _ _ _ hlt, hget]
      simp [Phase.holdsPermit]
      omega
  | wake i status hp =>
      obtain ⟨hlt, hget⟩ := List.getElem?_eq_some_iff.mp hp
      have hmem : Phase.sleeping status ∈ s.phases := hget ▸ List.getElem_mem hlt
      have hb : 0 < s.phases.countP Phase.holdsPermit :=
        List.countP_pos_iff.mpr ⟨_, hmem, rfl⟩
      dsimp only
      rw [List.countP_set _ _ _ _ hlt, hget]
      simp [Phase.holdsPermit]
      omega

/-- Every reachable state satisfies the accounting invariant. -/
theorem reachable_permitInv {cap n : Nat} {s : SemState}
    (h : Reachable cap n s) : permitInv cap s := by
  induction h with
  | refl => exact permitInv_init cap n
  | tail _ hbc ih => exact permitInv_step hbc ih

/-- A step that moves task `i` from a permit-holding phase to `done`
returns exactly one permit to the pool. -/
theorem step_to_done_releases {s s' : SemState} (hs : Step s s') (i : Nat)
    (ph : Phase) (hp : s.phases[i]? = some ph) (hold : ph.holdsPermit = true)
    (b : Bool) (hd : s'.phases[i]? = some (Phase.done b)) :
    s'.avail = s.avail + 1 := by
  cases hs with
  | acquire j hpj ha =>
      obtain ⟨hltj, _⟩ := List.getElem?_eq_some_iff.mp hpj
      by_cases hij : j = i
      · subst hij
        rw [List.getElem?_set_self (by simpa using hltj)] at hd
        exact absurd (Option.some.inj hd) (by simp)
      · rw [List.getElem?_set_ne hij] at hd
        rw [hp] at hd
        cases Option.some.inj hd
        simp [Phase.holdsPermit] at hold
  | respond j status hpj =>
      obtain ⟨hltj, _⟩ := List.getElem?_eq_some_iff.mp hpj
      by_cases hij : j = i
      · subst hij
        rw [List.getElem?_set_self (by simpa using hltj)] at hd
        exact absurd (Option.some.inj hd) (by simp)
      · rw [List.getElem?_set_ne hij] at hd
        rw [hp] at hd
        cases Option.some.inj hd
        simp [Phase.holdsPermit] at hold
  | raiseExn j hpj => rfl
  | wake j status hpj => rfl

/-- Reading every index of `l` in increasing order through `l[i]?`
returns `l` itself. -/
theorem filterMap_getElem_range (l : List α) :
    (List.range l.length).filterMap (fun i => l[i]?) = l := by
  induction l with
  | nil => rfl
  | cons a l ih =>
      rw [List.length_cons, List.range_succ_eq_map, List.filterMap_cons]
      simpa [List.filterMap_map, Function.comp_def, List.getElem?_cons_succ]
        using ih

/-- Splitting a `filterMap` by a boolean test preserves the total
number of retained elements. -/
theorem filterMap_split_length (p : Nat → Bool) (f : Nat → Option α)
    (order : List Nat) :
    (order.filterMap fun i => if p i then f i else none).length +
      (order.filterMap fun i => if p i then none else f i).length =
      (order.filterMap f).length := by
  induction order with
  | nil => rfl
  | cons j order ih =>
      by_cases hp : p j <;> cases hf : f j <;>
        simp [List.filterMap_cons, hp, hf] <;> omega

/-- The two halves of a `filterMap` split by a boolean test are, taken
together, a permutation of the unsplit `filterMap`. -/
theorem filterMap_split_perm (p : Nat → Bool) (f : Nat → Option α)
    (order : List Nat) :
    ((order.filterMap fun i => if p i then f i else none) ++
      (order.filterMap fun i => if p i then none else f i)).Perm
      (order.filterMap f) := by
  induction order with
  | nil => simp
  | cons j order ih =>
      by_cases hp : p j
      · cases hf : f j with
        | none => simpa [List.filterMap_cons, hp, hf] using ih
        | some r => simpa [List.filterMap_cons, hp, hf] using ih.cons r
      · cases hf : f j with
        | none => simpa [List.filterMap_cons, hp, hf] using ih
        | some r =>
            simp [List.filterMap_cons, hp, hf]
            exact List.perm_middle.trans (ih.cons r)

/-- A `filterMap` whose function retains at each point either what `f`
retains or nothing is a sublist of the `filterMap` of `f`. -/
theorem filterMap_sublist_of_le (f g : Nat → Option α)
    (h : ∀ i, g i = f i ∨ g i = none) (order : List Nat) :
    (order.filterMap g).Sublist (order.filterMap f) := by
  induction order with
  | nil => simp
  | cons j order ih =>
      rcases h j with hj | hj
      · cases hf : f j with
        | none => rw [List.filterMap_cons, List.filterMap_cons, hj, hf]; exact ih
        | some r =>
            rw [List.filterMap_cons, List.filterMap_cons, hj, hf]
            exact ih.cons₂ r
      · cases hf : f j with
        | none => rw [List.filterMap_cons, List.filterMap_cons, hj, hf]; exact ih
        | some r =>
            rw [List.filterMap_cons, List.filterMap_cons, hj, hf]
            exact ih.cons r

/-- C4: `check_url` returns Success (`true`) iff an HTTP response is
received whose status `s` satisfies `200 ≤ s < 300`; every other
observable condition — non-2xx status or any raised exception
(connection failure, DNS failure, malformed URL, timeout, transport
fault) — yields Failure (`false`). -/
theorem check_url_success_iff (b : GetBehaviour) :
    (probeResult b = true ↔
      ∃ s, b = GetBehaviour.respond s ∧ 200 ≤ s ∧ s < 300) ∧
    (∀ e, probeResult (GetBehaviour.raiseExn e) = false) := by
  constructor
  · cases b with
    | respond s => simp [probeResult, check_url, session_get, classify]
    | raiseExn e => simp [probeResult, check_url, session_get]
  · intro e
    rfl

/-- C4 witness: instantiation at a 204 response. -/
theorem check_url_success_iff_witness :
    (probeResult (GetBehaviour.respond 204) = true ↔
      ∃ s, GetBehaviour.respond 204 = GetBehaviour.respond s ∧
        200 ≤ s ∧ s < 300) ∧
    (∀ e, probeResult (GetBehaviour.raiseExn e) = false) :=
  check_url_success_iff (GetBehaviour.respond 204)

/-- C5: for every behaviour of the HTTP request — any response or any
exception kind — `check_url` hands a value back to its caller; no
exception escapes its boundary (the bare `except:` catches them
all). -/
theorem check_url_never_raises (b : GetBehaviour) :
    ∃ run : ProbeRun, check_url b = Except.ok run := by
  cases b with
  | respond s => exact ⟨_, rfl⟩
  | raiseExn e => exact ⟨_, rfl⟩

/-- C5 witness: instantiation at a timeout exception. -/
theorem check_url_never_raises_witness :
    ∃ run : ProbeRun,
      check_url (GetBehaviour.raiseExn AiohttpError.timeoutError) =
        Except.ok run :=
  check_url_never_raises (GetBehaviour.raiseExn AiohttpError.timeoutError)

/-- C6: the configured post-response delay is awaited iff an HTTP
response was actually received (2xx or not); on a transport-level
exception the probe returns Failure without awaiting the delay. -/
theorem check_url_delay_iff_response (b : GetBehaviour) :
    ∃ run : ProbeRun, check_url b = Except.ok run ∧
      (run.delayed = true ↔ ∃ s, b = GetBehaviour.respond s) ∧
      (∀ e, b = GetBehaviour.raiseExn e → run = ⟨false, false⟩) := by
  cases b with
  | respond s =>
      refine ⟨⟨classify s, true⟩, rfl, by simp, ?_⟩
      intro e h
      cases h
  | raiseExn e =>
      refine ⟨⟨false, false⟩, rfl, by simp, ?_⟩
      intro e' h
      rfl

/-- C6 witness: instantiation at a DNS failure. -/
theorem check_url_delay_iff_response_witness :
    ∃ run : ProbeRun,
      check_url (GetBehaviour.raiseExn AiohttpError.dnsError) =
          Except.ok run ∧
        (run.delayed = true ↔
          ∃ s, GetBehaviour.raiseExn AiohttpError.dnsError =
            GetBehaviour.respond s) ∧
        (∀ e, GetBehaviour.raiseExn AiohttpError.dnsError =
            GetBehaviour.raiseExn e → run = ⟨false, false⟩) :=
  check_url_delay_iff_response (GetBehaviour.raiseExn AiohttpError.dnsError)

/-- C1: for every record sequence and every completion order of the
probes (a permutation of the row indices), each input record lands in
exactly one of `good_rows`/`bad_rows`: the partition sizes sum to the
input size and the two partitions together are a permutation of the
input, so no record is duplicated or dropped. -/
theorem check_urls_partition (records : List α)
    (behaviour : Nat → GetBehaviour) (order : List Nat)
    (h : order.Perm (List.range records.length)) :
    (check_urls records behaviour order).1.length +
        (check_urls records behaviour order).2.length = records.length ∧
      ((check_urls records behaviour order).1 ++
        (check_urls records behaviour order).2).Perm records := by
  have hperm : (order.filterMap fun i => records[i]?).Perm records := by
    have hp := h.filterMap (fun i => records[i]?)
    rwa [filterMap_getElem_range] at hp
  constructor
  · have hl := filterMap_split_length (fun i => probeResult (behaviour i))
      (fun i => records[i]?) order
    simpa [check_urls] using hl.trans hperm.length_eq
  · have hs := filterMap_split_perm (fun i => probeResult (behaviour i))
      (fun i => records[i]?) order
    simpa [check_urls] using hs.trans hperm

/-- C1 witness: three records, completion order `[2, 0, 1]`, first
probe succeeding and the others failing. -/
theorem check_urls_partition_witness :
    ([2, 0, 1] : List Nat).Perm (List.range ([10, 20, 30] : List Nat).length) ∧
    ((check_urls [10, 20, 30]
          (fun i => if i = 0 then GetBehaviour.respond 200
            else GetBehaviour.respond 404) [2, 0, 1]).1.length +
        (check_urls [10, 20, 30]
          (fun i => if i = 0 then GetBehaviour.respond 200
            else GetBehaviour.respond 404) [2, 0, 1]).2.length =
        ([10, 20, 30] : List Nat).length ∧
      ((check_urls [10, 20, 30]
          (fun i => if i = 0 then GetBehaviour.respond 200
            else GetBehaviour.respond 404) [2, 0, 1]).1 ++
        (check_urls [10, 20, 30]
          (fun i => if i = 0 then GetBehaviour.respond 200
            else GetBehaviour.respond 404) [2, 0, 1]).2).Perm [10, 20, 30]) :=
  ⟨by decide,
    check_urls_partition [10, 20, 30]
      (fun i => if i = 0 then GetBehaviour.respond 200
        else GetBehaviour.respond 404) [2, 0, 1] (by decide)⟩

/-- C2 counterexample: two records whose probes both succeed, with the
second probe completing first.  `[1, 0]` is a legitimate completion
order, yet `good_rows` comes out as `[20, 10]` — not the original
input order `[10, 20]` the claim demands. -/
theorem check_urls_not_input_ordered :
    ([1, 0] : List Nat).Perm (List.range ([10, 20] : List Nat).length) ∧
    (check_urls [10, 20] (fun _ => GetBehaviour.respond 200) [1, 0]).1 =
      [20, 10] ∧
    (check_urls [10, 20] (fun _ => GetBehaviour.respond 200) [1, 0]).1 ≠
      [10, 20] := by
  refine ⟨by decide, by decide, by decide⟩

/-- C2 amended: the records within each partition appear in
probe-completion order (the order in which `process_row` tasks append
them), not necessarily original input order; when the probes complete
in original input order, each partition does preserve the input's
relative order — it is a subsequence of the input. -/
theorem check_urls_completion_order (records : List α)
    (behaviour : Nat → GetBehaviour) :
    (check_urls records behaviour
        (List.range records.length)).1.Sublist records ∧
    (check_urls records behaviour
        (List.range records.length)).2.Sublist records := by
  constructor
  · have hs := filterMap_sublist_of_le (fun i => records[i]?)
      (fun i => if probeResult (behaviour i) then records[i]? else none)
      (fun i => by by_cases hb : probeResult (behaviour i) <;> simp [hb])
      (List.range records.length)
    rw [filterMap_getElem_range] at hs
    simpa [check_urls] using hs
  · have hs := filterMap_sublist_of_le (fun i => records[i]?)
      (fun i => if probeResult (behaviour i) then none else records[i]?)
      (fun i => by by_cases hb : probeResult (behaviour i) <;> simp [hb])
      (List.range records.length)
    rw [filterMap_getElem_range] at hs
    simpa [check_urls] using hs

/-- C2 amended witness: instantiation at two records, one passing and
one failing probe. -/
theorem check_urls_completion_order_witness :
    (check_urls [10, 20]
        (fun i => if i = 0 then GetBehaviour.respond 301
          else GetBehaviour.respond 200)
        (List.range ([10, 20] : List Nat).length)).1.Sublist [10, 20] ∧
    (check_urls [10, 20]
        (fun i => if i = 0 then GetBehaviour.respond 301
          else GetBehaviour.respond 200)
        (List.range ([10, 20] : List Nat).length)).2.Sublist [10, 20] :=
  check_urls_completion_order [10, 20]
    (fun i => if i = 0 then GetBehaviour.respond 301
      else GetBehaviour.respond 200)

/-- C7: when the configured URL column is absent from the input, the
run aborts before probing: zero HTTP requests are issued and no output
partition file is produced. -/
theorem process_csv_missing_column (csv : Csv α)
    (behaviour : Nat → GetBehaviour) (order : List Nat)
    (h : urlColumn ∉ csv.columns) :
    (process_csv csv behaviour order).2.requestsIssued = 0 ∧
    (process_csv csv behaviour order).2.written = none := by
  simp [process_csv, h]

/-- C7 witness: a dataset with no columns at all. -/
theorem process_csv_missing_column_witness :
    (process_csv (⟨[], [1, 2]⟩ : Csv Nat)
        (fun _ => GetBehaviour.respond 200) [0, 1]).2.requestsIssued = 0 ∧
    (process_csv (⟨[], [1, 2]⟩ : Csv Nat)
        (fun _ => GetBehaviour.respond 200) [0, 1]).2.written = none :=
  process_csv_missing_column (⟨[], [1, 2]⟩ : Csv Nat)
    (fun _ => GetBehaviour.respond 200) [0, 1] (by simp)

/-- C8: with the URL column present and zero rows, the run completes
without error (normal `None` return) and writes two empty
partitions. -/
theorem process_csv_empty_input (columns : List String)
    (behaviour : Nat → GetBehaviour) (order : List Nat)
    (h : urlColumn ∈ columns) :
    process_csv (⟨columns, ([] : List α)⟩ : Csv α) behaviour order =
      (Except.ok (), ⟨0, some ([], []), [done_msg]⟩) := by
  simp [process_csv, h, check_urls]

/-- C8 witness: a dataset holding only the URL column and no rows. -/
theorem process_csv_empty_input_witness :
    process_csv (⟨[urlColumn], ([] : List Nat)⟩ : Csv Nat)
        (fun _ => GetBehaviour.respond 200) [] =
      (Except.ok (), ⟨0, some ([], []), [done_msg]⟩) :=
  process_csv_empty_input [urlColumn]
    (fun _ => GetBehaviour.respond 200) [] (by simp)

/-- C10: when the URL column is missing, `process_csv` prints a
message and returns normally (Python `None`), raising nothing; its
return value is identical to that of any run, including successful
ones — the missing-column case is indistinguishable from success at
the call boundary. -/
theorem process_csv_missing_column_returns_normally (csv : Csv α)
    (behaviour : Nat → GetBehaviour) (order : List Nat)
    (h : urlColumn ∉ csv.columns) :
    (process_csv csv behaviour order).1 = Except.ok () ∧
    (process_csv csv behaviour order).2.printed = [missing_column_msg] ∧
    ∀ (csv₂ : Csv α) (behaviour₂ : Nat → GetBehaviour) (order₂ : List Nat),
      (process_csv csv behaviour order).1 =
        (process_csv csv₂ behaviour₂ order₂).1 := by
  refine ⟨by simp [process_csv, h], by simp [process_csv, h], ?_⟩
  intro csv₂ behaviour₂ order₂
  by_cases h₂ : urlColumn ∈ csv₂.columns <;> simp [process_csv, h, h₂]

/-- C10 witness: a dataset whose only column is not the URL column. -/
theorem process_csv_missing_column_returns_normally_witness :
    (process_csv (⟨["title"], [7]⟩ : Csv Nat)
        (fun _ => GetBehaviour.respond 200) [0]).1 = Except.ok () ∧
    (process_csv (⟨["title"], [7]⟩ : Csv Nat)
        (fun _ => GetBehaviour.respond 200) [0]).2.printed =
      [missing_column_msg] ∧
    ∀ (csv₂ : Csv Nat) (behaviour₂ : Nat → GetBehaviour)
        (order₂ : List Nat),
      (process_csv (⟨["title"], [7]⟩ : Csv Nat)
          (fun _ => GetBehaviour.respond 200) [0]).1 =
        (process_csv csv₂ behaviour₂ order₂).1 :=
  process_csv_missing_column_returns_normally (⟨["title"], [7]⟩ : Csv Nat)
    (fun _ => GetBehaviour.respond 200) [0] (by simp [urlColumn])

/-- C3: in every reachable state of a run, the number of tasks that
hold a permit (past semaphore acquisition, not yet released) never
exceeds the capacity; and any step on which a permit-holding task
reaches `done` — normal return after the sleep or the exception path —
returns exactly its one permit to the pool. -/
theorem semaphore_capacity_respected (cap n : Nat) (s : SemState)
    (h : Reachable cap n s) :
    holders s ≤ cap ∧
    ∀ (s' : SemState) (i : Nat) (ph : Phase) (b : Bool), Step s s' →
      s.phases[i]? = some ph → ph.holdsPermit = true →
      s'.phases[i]? = some (Phase.done b) → s'.avail = s.avail + 1 := by
  constructor
  · have hinv := reachable_permitInv h
    unfold permitInv at hinv
    omega
  · intro s' i ph b hs hp hold hd
    exact step_to_done_releases hs i ph hp hold b hd

/-- C3 witness: instantiation at the initial state of a run with
capacity 2 and 3 tasks. -/
theorem semaphore_capacity_respected_witness :
    holders (initState 2 3) ≤ 2 ∧
    ∀ (s' : SemState) (i : Nat) (ph : Phase) (b : Bool),
      Step (initState 2 3) s' →
      (initState 2 3).phases[i]? = some ph → ph.holdsPermit = true →
      s'.phases[i]? = some (Phase.done b) →
      s'.avail = (initState 2 3).avail + 1 :=
  semaphore_capacity_respected 2 3 (initState 2 3) Relation.ReflTransGen.refl

/-- C9: a task awaiting the post-response sleep still holds its permit
— strictly fewer than `cap` permits are free while it sleeps — and the
only step that moves it past the sleep is the one that simultaneously
finishes it with the classified status and releases the permit; so a
task merely waiting out the delay counts against the capacity. -/
theorem sleeping_task_holds_permit (cap n : Nat) (s : SemState)
    (i status : Nat) (h : Reachable cap n s)
    (hp : s.phases[i]? = some (Phase.sleeping status)) :
    s.avail < cap ∧
    ∀ s' : SemState, Step s s' →
      s'.phases[i]? = some (Phase.sleeping status) ∨
      (s'.phases[i]? = some (Phase.done (classify status)) ∧
        s'.avail = s.avail + 1) := by
  constructor
  · have hinv := reachable_permitInv h
    unfold permitInv holders at hinv
    obtain ⟨hlt, hget⟩ := List.getElem?_eq_some_iff.mp hp
    have hmem : Phase.sleeping status ∈ s.phases := hget ▸ List.getElem_mem hlt
    have hb : 0 < s.phases.countP Phase.holdsPermit :=
      List.countP_pos_iff.mpr ⟨_, hmem, rfl⟩
    omega
  · intro s' hs
    cases hs with
    | acquire j hpj ha =>
        by_cases hij : j = i
        · subst hij
          rw [hpj] at hp
          cases Option.some.inj hp
        · left
          dsimp only
          rw [List.getElem?_set_ne hij]
          exact hp
    | respond j st hpj =>
        by_cases hij : j = i
        · subst hij
          rw [hpj] at hp
          cases Option.some.inj hp
        · left
          dsimp only
          rw [List.getElem?_set_ne hij]
          exact hp
    | raiseExn j hpj =>
        by_cases hij : j = i
        · subst hij
          rw [hpj] at hp
          cases Option.some.inj hp
        · left
          dsimp only
          rw [List.getElem?_set_ne hij]
          exact hp
    | wake j st hpj =>
        by_cases hij : j = i
        · subst hij
          rw [hpj] at hp
          cases Option.some.inj hp
          right
          obtain ⟨hlt, _⟩ := List.getElem?_eq_some_iff.mp hpj
          exact ⟨by dsimp only; rw [List.getElem?_set_self (by simpa using hlt)],
            rfl⟩
        · left
          dsimp only
          rw [List.getElem?_set_ne hij]
          exact hp

/-- C9 witness: instantiation at the reachable state of a
capacity-one, one-task run whose task got a 200 response and is
sleeping out the delay — no permit is free while it sleeps. -/
theorem sleeping_task_holds_permit_witness :
    (⟨0, [Phase.sleeping 200]⟩ : SemState).avail < 1 ∧
    ∀ s' : SemState, Step ⟨0, [Phase.sleeping 200]⟩ s' →
      s'.phases[0]? = some (Phase.sleeping 200) ∨
      (s'.phases[0]? = some (Phase.done (classify 200)) ∧
        s'.avail = (⟨0, [Phase.sleeping 200]⟩ : SemState).avail + 1) :=
  sleeping_task_holds_permit 1 1 ⟨0, [Phase.sleeping 200]⟩ 0 200
    (Relation.ReflTransGen.tail
      (Relation.ReflTransGen.tail Relation.ReflTransGen.refl
        (Step.acquire (initState 1 1) 0 rfl (by decide)))
      (Step.respond ⟨0, [Phase.requesting]⟩ 0 200 rfl))
    rfl
